import Mathlib

/-!
Verification of the core aggregation and monitoring logic of the
OctopusEnergyMonitor repository (src/energy_monitor.py, src/utils/monitor.py,
src/utils/file.py, src/utils/prices.py), shallowly embedded over ℚ.
-/

set_option maxRecDepth 8000

namespace OctopusEnergyMonitor

/-- The 48 half-hour slot labels of a day (`TIMES` in src/utils/prices.py),
encoded as minutes after midnight: "00:00" ↦ 0, "00:30" ↦ 30, …, "23:30" ↦ 1410. -/
def TIMES : List Nat := (List.range 48).map (fun i => i * 30)

/-- One parsed row of a day's readings CSV as the aggregation functions use it:
the calendar date (a day index) and the "HH:MM" part (minutes after midnight)
parsed from the row's `Datetime` column. -/
structure Row where
  date : Int
  slot : Nat
deriving DecidableEq, Repr

/-- The `time_to_watts_map` dictionaries: pulse count per slot label. -/
def WattsMap : Type := Nat → Nat

/-- Body of the `iterrows` loops in src/energy_monitor.py (lines 270-276,
426-432): `time_to_watts_map[current_time] += 1` for a row whose `Datetime`
date equals the target day. -/
def bumpRow (target : Int) (m : WattsMap) (r : Row) : WattsMap :=
  if r.date = target then (fun s => if s = r.slot then m s + 1 else m s) else m

/-- Folding the `iterrows` loop over a list of rows. -/
def buildWattsMap (target : Int) (init : WattsMap) (rows : List Row) : WattsMap :=
  rows.foldl (bumpRow target) init

/-- `sum(previous_time_watts_map.values())`: the maps built by the aggregation
code have exactly the 48 `TIMES` keys, so the value sum is the sum over `TIMES`. -/
def sumWatts (m : WattsMap) : Nat := (TIMES.map m).sum

/-- `calculate_total_cost` (src/energy_monitor.py lines 240-291).  The two
file/directory reads are passed in: `readings` is the parsed day log
(`none` when the CSV file is missing) and `timeToPriceMap` the (possibly
partial) price table. -/
def calculate_total_cost (targetDate : Int) (blinksPerKilowatt : Rat)
    (readings : Option (List Row)) (timeToPriceMap : Nat → Option Rat) : Rat × Rat :=
  match readings with
  | none => (0, 0)
  | some rows =>
    if rows.length < 2 then (0, 0)
    else
      let m := buildWattsMap targetDate (fun _ => 0) rows
      let power := (TIMES.map (fun s => (m s : Rat) * (1 / blinksPerKilowatt))).sum
      let cost := (TIMES.map (fun s =>
        match timeToPriceMap s with
        | some p => (m s : Rat) * p * (1000 / blinksPerKilowatt) / 100000
        | none => 0)).sum
      (cost, power)

/-- The dictionary returned by `calculate_total_cost_and_power_faster`. -/
structure FasterResult where
  cost : Rat
  power : Rat
  average_cost_in_pence : Rat
  time_to_watts_map : Option WattsMap

/-- `calculate_total_cost_and_power_faster` (src/energy_monitor.py lines
384-453).  `readings_df.tail(max(0, len - k))` keeps the last `len - k` rows,
i.e. drops `k` rows from the front, and `tail(0)` when the previous wattage
sum is zero keeps no rows at all. -/
def calculate_total_cost_and_power_faster (targetDate : Int) (blinksPerKilowatt : Rat)
    (readings : Option (List Row)) (previousTimeWattsMap : Option WattsMap)
    (timeToPriceMap : Option (Nat → Option Rat)) : FasterResult :=
  match readings, timeToPriceMap with
  | none, _ => ⟨0, 0, 0, none⟩
  | some _, none => ⟨0, 0, 0, none⟩
  | some rows, some priceMap =>
    let init : WattsMap :=
      match previousTimeWattsMap with
      | none => fun _ => 0
      | some m => m
    let scanned : List Row :=
      match previousTimeWattsMap with
      | none => rows
      | some m => if sumWatts m = 0 then [] else rows.drop (sumWatts m)
    let m := buildWattsMap targetDate init scanned
    let power := (TIMES.map (fun s => (m s : Rat) / blinksPerKilowatt)).sum
    let cost := (TIMES.map (fun s =>
      match priceMap s with
      | some p => ((m s : Rat) / blinksPerKilowatt) * p / 100
      | none => 0)).sum
    let avg := if power = 0 then 0 else 100 * cost / power
    ⟨cost, power, avg, some m⟩

/-- The initial accumulator of an incremental aggregation run: before the
first call there is no `time_to_watts_map` yet. -/
def zeroResult : FasterResult := ⟨0, 0, 0, none⟩

/-- Running `calculate_total_cost_and_power_faster` incrementally over a
chunking of the log into successive prefixes: `ns` lists the prefix lengths,
and each call receives the watts map returned by the previous call, starting
from `none`. -/
def runChunks (targetDate : Int) (blinksPerKilowatt : Rat) (rows : List Row)
    (priceMap : Nat → Option Rat) (ns : List Nat) : FasterResult :=
  ns.foldl
    (fun acc n =>
      calculate_total_cost_and_power_faster targetDate blinksPerKilowatt
        (some (rows.take n)) acc.time_to_watts_map (some priceMap))
    zeroResult

/-- A row of a valid day log: it belongs to the target day and its slot is
one of the 48 half-hour labels (every record the monitor writes satisfies
this). -/
def validRow (target : Int) (r : Row) : Prop := r.date = target ∧ r.slot ∈ TIMES

instance (target : Int) (r : Row) : Decidable (validRow target r) :=
  inferInstanceAs (Decidable (r.date = target ∧ r.slot ∈ TIMES))

/-- The cost/power/average fields `calculate_total_cost_and_power_faster`
derives from a finished watts map (proof-structuring helper). -/
def resultOf (blinksPerKilowatt : Rat) (priceMap : Nat → Option Rat)
    (m : WattsMap) : FasterResult :=
  let power := (TIMES.map (fun s => (m s : Rat) / blinksPerKilowatt)).sum
  let cost := (TIMES.map (fun s =>
    match priceMap s with
    | some p => ((m s : Rat) / blinksPerKilowatt) * p / 100
    | none => 0)).sum
  ⟨cost, power, if power = 0 then 0 else 100 * cost / power, some m⟩

/-- The epoch timestamp of a split line: `float(line.split(",")[1])`; the
access is always guarded by a `len > 1` check, so the default is never
observed. -/
def tsOf (line : List Rat) : Rat := line.getD 1 0

/-- The backward scan loop of `get_power_stats_from_past`
(src/energy_monitor.py lines 141-159).  The file is read newest line first;
each line is given already split on commas, with the numeric fields parsed.
A line with fewer than 2 fields stops the scan; otherwise field 1 is the
epoch timestamp, each of the three windows counts it when it is strictly
newer than that window's threshold, and a timestamp strictly older than the
60-minute threshold stops the scan after being processed. -/
def gpsScan (lastFiveTime lastHalfTime lastHourTime blinksPerKilowatt : Rat) :
    List (List Rat) → Rat × Rat × Rat → Rat × Rat × Rat
  | [], stats => stats
  | line :: rest, (five, thirty, sixty) =>
    if 1 < line.length then
      let five2 := if lastFiveTime < tsOf line then five + 1 / blinksPerKilowatt else five
      let thirty2 := if lastHalfTime < tsOf line then thirty + 1 / blinksPerKilowatt else thirty
      let sixty2 := if lastHourTime < tsOf line then sixty + 1 / blinksPerKilowatt else sixty
      if tsOf line < lastHourTime then (five2, thirty2, sixty2)
      else gpsScan lastFiveTime lastHalfTime lastHourTime blinksPerKilowatt rest (five2, thirty2, sixty2)
    else (five, thirty, sixty)

/-- `get_power_stats_from_past` (src/energy_monitor.py lines 122-160):
the (5-minute, 30-minute, 60-minute) power statistics, scanning the day log
backward from the newest row. -/
def get_power_stats_from_past (fromTime blinksPerKilowatt : Rat)
    (linesNewestFirst : List (List Rat)) : Rat × Rat × Rat :=
  gpsScan (fromTime - 300) (fromTime - 1800) (fromTime - 3600) blinksPerKilowatt
    linesNewestFirst (0, 0, 0)

/-- Closed form used to state C3 (from the claim's words): the prefix of the
backward-read lines the scan visits with full effect, i.e. the lines before
the first short line and before the first line strictly older than the
60-minute threshold. -/
def scanPrefix (lastHourTime : Rat) (ls : List (List Rat)) : List (List Rat) :=
  ls.takeWhile (fun l => decide (1 < l.length) && decide (lastHourTime ≤ tsOf l))

/-- Closed form used to state C3 (from the claim's words): how many lines of
a list carry an epoch timestamp strictly newer than a threshold. -/
def windowCount (threshold : Rat) (ls : List (List Rat)) : Nat :=
  ls.countP (fun l => decide (threshold < tsOf l))

/-- Number of bytes the UTF-8 encoding uses for one character. -/
def charUtf8Size (c : Char) : Nat :=
  if c.toNat < 128 then 1
  else if c.toNat < 2048 then 2
  else if c.toNat < 65536 then 3
  else 4

/-- UTF-8 byte length of a string given as its character list: models
`len(s.encode())` in src/utils/file.py. -/
def utf8Len (l : List Char) : Nat := (l.map charUtf8Size).sum

/-- `is_ascii` (src/utils/file.py lines 7-17): `len(s) == len(s.encode())`. -/
def is_ascii (l : List Char) : Bool := l.length = utf8Len l

/-- `fix_text_corruption` (src/utils/file.py lines 20-39): rewrite a file
keeping exactly the lines that split into 5 comma-separated fields
(`len(line.split(",")) == 5`, i.e. exactly 4 commas) and are pure ASCII. -/
def fix_text_corruption (lines : List (List Char)) : List (List Char) :=
  lines.filter (fun l => decide (l.count ',' + 1 = 5) && is_ascii l)

/-- `fix_data_corruption_of_latest_two_files` (src/utils/file.py lines
42-56).  `sorted(Path(dir).iterdir(), key=os.path.getmtime)` lists the
data directory's files oldest first; the model takes that listing (each file
as its list of lines), reverses it and repairs the first `min(2, n)` files,
returning the directory's contents in the original order. -/
def fix_data_corruption_of_latest_two_files (filesOldestFirst : List (List (List Char))) :
    List (List (List Char)) :=
  let rev := filesOldestFirst.reverse
  (rev.enum.map (fun p => if p.1 < 2 then fix_text_corruption p.2 else p.2)).reverse

/-- One record the monitor writes to a day CSV file
(`write_energy_reading_to_file`, src/utils/monitor.py lines 102-130): lux,
epoch time, the unit-price slot start (minutes after midnight; the wall-clock
string of the third CSV field is derived from the epoch time and omitted)
and the origin tag. -/
structure Record where
  lux : Rat
  epochTime : Rat
  slotMin : Nat
  origin : String
deriving DecidableEq, Repr

/-- Calendar-day index of an epoch time
(`datetime.fromtimestamp(t).strftime("%Y-%m-%d")`), with the local timezone
modelled as UTC — a constant offset does not affect the claims. -/
def dayOf (t : Rat) : Int := ⌊t / 86400⌋

/-- `get_unit_datetime` (src/utils/monitor.py lines 77-100) as minutes after
midnight: XX:00 when the minute is below 30, XX:30 otherwise. -/
def slotMinOf (t : Rat) : Nat :=
  ((⌊t⌋ % 86400).toNat / 60 / 30) * 30

/-- The data directory: one optional CSV file (its list of records) per
calendar day. -/
def FS : Type := Int → Option (List Record)

/-- Appending one line to a day's CSV file, creating the file when absent
(`open(csv_filename, "a")`). -/
def writeReading (fs : FS) (day : Int) (r : Record) : FS :=
  fun d => if d = day then some (((fs day).getD []) ++ [r]) else fs d

/-- Number of lines of a day's CSV file (0 when the file is absent);
`is_first_input_to_csv` (src/utils/monitor.py lines 58-75) is
`lineCountFS fs day ≤ 2`. -/
def lineCountFS (fs : FS) (day : Int) : Nat := ((fs day).getD []).length

/-- One append the monitor performed: which day file received which record. -/
structure Ev where
  day : Int
  record : Record
deriving DecidableEq, Repr

/-- The monitor's in-loop mutable state together with the file system and
the trace of appends performed so far. -/
structure SynthState where
  fs : FS
  events : List Ev
  previous_lux : Rat
  previous_previous_time : Rat
  previous_time : Rat
  previous_time_origin : String

/-- Append a record to a day file, also recording it in the event trace. -/
def appendEvent (s : SynthState) (day : Int) (r : Record) : SynthState :=
  { s with fs := writeReading s.fs day r, events := s.events ++ [⟨day, r⟩] }

/-- One iteration of the gap-smoothing loop (src/utils/monitor.py lines
175-221): synthesize the `index`-th interpolated pulse, pre-seed a freshly
created day file with the rolling previous reading, append the synthesized
record with origin "fixed", copy it to the previous day's file when it is
the file's 1st or 2nd line, and advance the rolling previous state. -/
def synthIter (originalPreviousTime originalPreviousLux currentTime currentLux : Rat)
    (numSegments : Int) (index : Nat) (s : SynthState) : SynthState :=
  let currentLuxFixed := ((currentLux + originalPreviousLux) / 2) + 1 * (index : Rat)
  let currentTimeFixed := originalPreviousTime +
    ((currentTime - originalPreviousTime) / (numSegments : Rat)) * ((index : Rat) + 1)
  let day := dayOf currentTimeFixed
  let s1 :=
    if s.fs day = none then
      appendEvent s day
        ⟨s.previous_lux, s.previous_time, slotMinOf s.previous_time, s.previous_time_origin⟩
    else s
  let r : Record := ⟨currentLuxFixed, currentTimeFixed, slotMinOf currentTimeFixed, "fixed"⟩
  let s2 := appendEvent s1 day r
  let s3 := if lineCountFS s2.fs day ≤ 2 then appendEvent s2 (day - 1) r else s2
  { s3 with
    previous_previous_time := s3.previous_time
    previous_lux := currentLuxFixed
    previous_time := currentTimeFixed
    previous_time_origin := "fixed" }

/-- The real-pulse write block (src/utils/monitor.py lines 225-259): pre-seed
a missing day file with the rolling previous reading when both previous pulse
times exist, append the current reading with origin "original", and copy it
to the previous day's file when it is the file's 1st or 2nd line and a
previous pulse time exists. -/
def realWrite (currentTime currentLux : Rat) (s : SynthState) : SynthState :=
  let day := dayOf currentTime
  let s1 :=
    if 0 < s.previous_previous_time ∧ 0 < s.previous_time ∧ s.fs day = none then
      appendEvent s day
        ⟨s.previous_lux, s.previous_time, slotMinOf s.previous_time, s.previous_time_origin⟩
    else s
  let r : Record := ⟨currentLux, currentTime, slotMinOf currentTime, "original"⟩
  let s2 := appendEvent s1 day r
  if lineCountFS s2.fs day ≤ 2 ∧ 0 < s.previous_time then appendEvent s2 (day - 1) r else s2

/-- Round half to even: `numpy.round` on a scalar, as used for
`num_segments` (src/utils/monitor.py line 171). -/
def roundHalfEven (x : Rat) : Int :=
  let f := ⌊x⌋
  let r := x - (f : Rat)
  if r < 1 / 2 then f
  else if 1 / 2 < r then f + 1
  else if f % 2 = 0 then f else f + 1

/-- The configuration values the monitor loop reads. -/
structure MonConfig where
  minLuxDifference : Rat
  smoothingMultiplier : Rat
  smoothingLimit : Nat

/-- The monitor's state carried between loop iterations
(src/utils/monitor.py lines 136-141). -/
structure MonState where
  previous_lux : Rat
  previous_previous_time : Rat
  previous_time : Rat
  previous_time_origin : String
  current_time : Rat
  fix_counter : Nat

/-- One iteration of the body of `EnergyMonitor.monitor`'s while loop
(src/utils/monitor.py lines 143-262), with the sensor reading `currentLux`
and the wall clock `time.time() = now` passed in.  Returns the new state,
the new file system and the list of appends performed, in order. -/
def monitorStep (cfg : MonConfig) (st : MonState) (fs : FS) (currentLux now : Rat) :
    MonState × FS × List Ev :=
  if 0 < currentLux then
    if |st.previous_lux - currentLux| < cfg.minLuxDifference then (st, fs, [])
    else
      let previous_previous_time := st.previous_time
      let previous_time := st.current_time
      let current_time := now
      let s0 : SynthState :=
        ⟨fs, [], st.previous_lux, previous_previous_time, previous_time, "original"⟩
      let currentInterval := current_time - previous_time
      let previousInterval := previous_time - previous_previous_time
      let bothPrev := 0 < previous_previous_time ∧ 0 < previous_time
      let trigger := previousInterval * cfg.smoothingMultiplier < currentInterval ∧
        st.fix_counter < cfg.smoothingLimit
      let numSegments := roundHalfEven (currentInterval / previousInterval)
      let s1 :=
        if bothPrev ∧ trigger then
          (List.range (max 0 (numSegments - 1)).toNat).foldl
            (fun s i => synthIter previous_time st.previous_lux current_time currentLux
              numSegments i s) s0
        else s0
      let fixCounter2 :=
        if bothPrev then (if trigger then st.fix_counter + 1 else 0) else st.fix_counter
      let s2 := realWrite current_time currentLux s1
      (⟨currentLux, s2.previous_previous_time, s2.previous_time, s2.previous_time_origin,
        current_time, fixCounter2⟩, s2.fs, s2.events)
  else (st, fs, [])

/-! ## Theorems -/

/-- C6: aggregation returns zero-valued sentinels and never raises: with a
missing log file or fewer than 2 records `calculate_total_cost` returns
exactly (0, 0), and with a `None` readings DataFrame or a `None` price map
`calculate_total_cost_and_power_faster` returns the dict with cost 0,
power 0, average_cost_in_pence 0 and time_to_watts_map None. -/
theorem c6_zero_sentinels (target : Int) (blinks : Rat) (priceMap : Nat → Option Rat)
    (rows : List Row) (readings : Option (List Row)) (prevMap : Option WattsMap)
    (priceMap2 : Option (Nat → Option Rat)) :
    calculate_total_cost target blinks none priceMap = (0, 0) ∧
    (rows.length < 2 → calculate_total_cost target blinks (some rows) priceMap = (0, 0)) ∧
    calculate_total_cost_and_power_faster target blinks none prevMap priceMap2 =
      ⟨0, 0, 0, none⟩ ∧
    calculate_total_cost_and_power_faster target blinks readings prevMap none =
      ⟨0, 0, 0, none⟩ := by
  refine ⟨rfl, ?_, rfl, ?_⟩
  · intro h
    simp [calculate_total_cost, h]
  · cases readings <;> rfl

/-- Witness for C6 at a concrete input. -/
theorem c6_zero_sentinels_witness :
    ([⟨0, 0⟩] : List Row).length < 2 ∧
      calculate_total_cost 0 600 (some [⟨0, 0⟩]) (fun _ => none) = (0, 0) :=
  ⟨by decide,
    (c6_zero_sentinels 0 600 (fun _ => none) [⟨0, 0⟩] none none none).2.1 (by decide)⟩

/-- C8: `calculate_total_cost_and_power_faster` never divides by zero for
the average unit price: when the computed power total is 0 the returned
average_cost_in_pence is 0, otherwise it is 100 * cost / power. -/
theorem c8_average_guarded (target : Int) (blinks : Rat)
    (readings : Option (List Row)) (prevMap : Option WattsMap)
    (priceMap : Option (Nat → Option Rat)) :
    (calculate_total_cost_and_power_faster target blinks readings prevMap priceMap).average_cost_in_pence =
      if (calculate_total_cost_and_power_faster target blinks readings prevMap priceMap).power = 0
      then 0
      else 100 * (calculate_total_cost_and_power_faster target blinks readings prevMap priceMap).cost
        / (calculate_total_cost_and_power_faster target blinks readings prevMap priceMap).power := by
  cases readings with
  | none => simp [calculate_total_cost_and_power_faster]
  | some rows =>
    cases priceMap with
    | none => simp [calculate_total_cost_and_power_faster]
    | some pm => rfl

/-- C10: when the supplied previous watts map sums to 0,
`calculate_total_cost_and_power_faster` scans no rows at all (the map is
returned unchanged) and yields cost 0 and power 0 regardless of the log's
contents; in general the number of rows skipped from the front equals the
sum of the previous map's counts. -/
theorem c10_zero_sum_scans_nothing (target : Int) (blinks : Rat) (rows : List Row)
    (m : WattsMap) (priceMap : Nat → Option Rat) :
    (sumWatts m = 0 →
      (calculate_total_cost_and_power_faster target blinks (some rows) (some m)
        (some priceMap)).cost = 0 ∧
      (calculate_total_cost_and_power_faster target blinks (some rows) (some m)
        (some priceMap)).power = 0 ∧
      (calculate_total_cost_and_power_faster target blinks (some rows) (some m)
        (some priceMap)).time_to_watts_map = some m) ∧
    (sumWatts m ≠ 0 →
      (calculate_total_cost_and_power_faster target blinks (some rows) (some m)
        (some priceMap)).time_to_watts_map =
        some (buildWattsMap target m (rows.drop (sumWatts m)))) := by
  constructor
  · intro h
    have hall : ∀ s ∈ TIMES, m s = 0 := by
      intro s hs
      have := (List.sum_eq_zero_iff).mp h
      exact this (m s) (List.mem_map_of_mem m hs)
    refine ⟨?_, ?_, ?_⟩
    · simp only [calculate_total_cost_and_power_faster, h, if_pos]
      apply List.sum_eq_zero
      intro x hx
      rcases List.mem_map.mp hx with ⟨s, hs, rfl⟩
      have hm : buildWattsMap target m [] s = 0 := hall s hs
      simp [buildWattsMap] at hm ⊢
      rw [hm]
      cases priceMap s <;> simp
    · simp only [calculate_total_cost_and_power_faster, h, if_pos]
      apply List.sum_eq_zero
      intro x hx
      rcases List.mem_map.mp hx with ⟨s, hs, rfl⟩
      have hm : buildWattsMap target m [] s = 0 := hall s hs
      simp [buildWattsMap] at hm ⊢
      rw [hm]
      simp
    · simp [calculate_total_cost_and_power_faster, h, buildWattsMap]
  · intro h
    simp [calculate_total_cost_and_power_faster, h]

/-- Witness for C10 at a concrete input: an all-zero previous map over a
3-row log. -/
theorem c10_zero_sum_scans_nothing_witness :
    sumWatts (fun _ => 0) = 0 ∧
      (calculate_total_cost_and_power_faster 0 600
        (some [⟨0, 0⟩, ⟨0, 0⟩, ⟨0, 30⟩]) (some (fun _ => 0))
        (some (fun _ => some 25))).power = 0 :=
  ⟨by decide,
    ((c10_zero_sum_scans_nothing 0 600 [⟨0, 0⟩, ⟨0, 0⟩, ⟨0, 30⟩] (fun _ => 0)
      (fun _ => some 25)).1 (by decide)).2.1⟩

/-- The full-scan per-slot cost formula equals the incremental one in exact
arithmetic: count * price * (1000 / blinks) / 100000 = (count / blinks) * price / 100. -/
theorem costTerm_full_eq_faster (c : Nat) (p b : Rat) :
    (c : Rat) * p * (1000 / b) / 100000 = ((c : Rat) / b) * p / 100 := by
  rcases eq_or_ne b 0 with hb | hb
  · simp [hb]
  · field_simp
    ring

/-- The full-scan per-slot power formula equals the incremental one. -/
theorem powerTerm_full_eq_faster (c : Nat) (b : Rat) :
    (c : Rat) * (1 / b) = (c : Rat) / b :=
  mul_one_div _ _

/-- The incremental per-slot cost formula in the form the claim states it. -/
theorem costTerm_claim_form (c : Nat) (p b : Rat) :
    ((c : Rat) / b) * p / 100 = (c : Rat) * p / b / 100 := by
  rw [div_mul_eq_mul_div]

/-- C5: for every slot, a slot label absent from the price table still
contributes its full pulseCount / pulsesPerKilowattHour to the power total
while contributing exactly zero to the cost total, and a present slot
contributes pulseCount * price / pulsesPerKilowattHour / 100 to the cost —
in both `calculate_total_cost` and `calculate_total_cost_and_power_faster`. -/
theorem c5_missing_slot_contributions (target : Int) (blinks : Rat) (rows : List Row)
    (priceMap : Nat → Option Rat) (h2 : 2 ≤ rows.length) :
    (calculate_total_cost target blinks (some rows) priceMap).1 =
      (TIMES.map (fun s =>
        match priceMap s with
        | some p => ((buildWattsMap target (fun _ => 0) rows) s : Rat) * p / blinks / 100
        | none => 0)).sum ∧
    (calculate_total_cost target blinks (some rows) priceMap).2 =
      (TIMES.map (fun s =>
        ((buildWattsMap target (fun _ => 0) rows) s : Rat) / blinks)).sum ∧
    (calculate_total_cost_and_power_faster target blinks (some rows) none
        (some priceMap)).cost =
      (TIMES.map (fun s =>
        match priceMap s with
        | some p => ((buildWattsMap target (fun _ => 0) rows) s : Rat) * p / blinks / 100
        | none => 0)).sum ∧
    (calculate_total_cost_and_power_faster target blinks (some rows) none
        (some priceMap)).power =
      (TIMES.map (fun s =>
        ((buildWattsMap target (fun _ => 0) rows) s : Rat) / blinks)).sum := by
  have hlt : ¬ rows.length < 2 := Nat.not_lt.mpr h2
  refine ⟨?_, ?_, ?_, ?_⟩
  · simp only [calculate_total_cost, hlt, if_false]
    congr 1
    apply List.map_congr_left
    intro s _
    cases hp : priceMap s with
    | none => simp
    | some p => simp only []; rw [costTerm_full_eq_faster, costTerm_claim_form]
  · simp only [calculate_total_cost, hlt, if_false]
    congr 1
    apply List.map_congr_left
    intro s _
    exact powerTerm_full_eq_faster _ _
  · simp only [calculate_total_cost_and_power_faster]
    congr 1
    apply List.map_congr_left
    intro s _
    cases hp : priceMap s with
    | none => simp
    | some p => simp only []; rw [costTerm_claim_form]
  · rfl

/-- Witness for C5 at a concrete input: a 2-row log with one pulse in slot
"00:00" (priced) and one in slot "00:30" (absent from the table). -/
theorem c5_missing_slot_contributions_witness :
    2 ≤ ([⟨0, 0⟩, ⟨0, 30⟩] : List Row).length ∧
      (calculate_total_cost 0 1 (some [⟨0, 0⟩, ⟨0, 30⟩])
        (fun s => if s = 0 then some 100 else none)).2 =
      (TIMES.map (fun s =>
        ((buildWattsMap 0 (fun _ => 0) [⟨0, 0⟩, ⟨0, 30⟩]) s : Rat) / 1)).sum :=
  ⟨by decide,
    (c5_missing_slot_contributions 0 1 [⟨0, 0⟩, ⟨0, 30⟩]
      (fun s => if s = 0 then some 100 else none) (by decide)).2.1⟩

theorem TIMES_nodup : TIMES.Nodup := by decide

/-- Incrementing a map at a key occurring once in a duplicate-free list
raises the sum of its values over the list by one. -/
theorem sum_map_update (l : List Nat) (hl : l.Nodup) (m : Nat → Nat) (s : Nat)
    (hs : s ∈ l) :
    (l.map (fun x => if x = s then m x + 1 else m x)).sum = (l.map m).sum + 1 := by
  induction l with
  | nil => cases hs
  | cons a t ih =>
    rcases List.nodup_cons.mp hl with ⟨ha, ht⟩
    by_cases hsa : a = s
    · have htail : t.map (fun x => if x = s then m x + 1 else m x) = t.map m := by
        apply List.map_congr_left
        intro x hx
        have hxs : x ≠ s := by
          intro hxs
          apply ha
          rw [hsa, ← hxs]
          exact hx
        simp [hxs]
      simp only [List.map_cons, List.sum_cons, htail, hsa, if_pos]
      omega
    · have hst : s ∈ t := by
        rcases List.mem_cons.mp hs with h | h
        · exact absurd h.symm hsa
        · exact h
      simp only [List.map_cons, List.sum_cons, if_neg hsa, ih ht hst]
      omega

/-- Each valid row bumps exactly one of the 48 slot counters, so scanning a
valid log adds its length to the value sum of the watts map. -/
theorem sumWatts_build (target : Int) (rows : List Row) :
    ∀ init : WattsMap, (∀ r ∈ rows, validRow target r) →
      sumWatts (buildWattsMap target init rows) = sumWatts init + rows.length := by
  induction rows with
  | nil => intro init _; simp [buildWattsMap]
  | cons r t ih =>
    intro init hv
    obtain ⟨hdate, hslot⟩ := hv r (List.mem_cons_self r t)
    have hstep : buildWattsMap target init (r :: t) =
        buildWattsMap target (fun s => if s = r.slot then init s + 1 else init s) t := by
      simp [buildWattsMap, List.foldl_cons, bumpRow, hdate]
    rw [hstep, ih _ (fun x hx => hv x (List.mem_cons_of_mem r hx))]
    have : sumWatts (fun s => if s = r.slot then init s + 1 else init s) =
        sumWatts init + 1 := sum_map_update TIMES TIMES_nodup init r.slot hslot
    rw [this]
    simp only [List.length_cons]
    omega

/-- Scanning a concatenation resumes the fold from the intermediate map. -/
theorem buildWattsMap_append (target : Int) (init : WattsMap) (xs ys : List Row) :
    buildWattsMap target init (xs ++ ys) =
      buildWattsMap target (buildWattsMap target init xs) ys := by
  unfold buildWattsMap
  rw [List.foldl_append]

theorem sumWatts_zero : sumWatts (fun _ => 0) = 0 := by
  simp [sumWatts]

/-- A first incremental call with no previous map scans the whole supplied
prefix. -/
theorem faster_first_call (target : Int) (blinks : Rat) (rows : List Row)
    (priceMap : Nat → Option Rat) :
    calculate_total_cost_and_power_faster target blinks (some rows) none (some priceMap) =
      resultOf blinks priceMap (buildWattsMap target (fun _ => 0) rows) := rfl

/-- Scanning a nonempty valid prefix of length `k` yields a watts map whose
value sum is `k`. -/
theorem sumWatts_take (target : Int) (rows : List Row)
    (hvalid : ∀ r ∈ rows, validRow target r) (k : Nat) (hk : k ≤ rows.length) :
    sumWatts (buildWattsMap target (fun _ => 0) (rows.take k)) = k := by
  have hvk : ∀ r ∈ rows.take k, validRow target r :=
    fun r hr => hvalid r (List.take_subset k rows hr)
  rw [sumWatts_build target (rows.take k) _ hvk, sumWatts_zero, List.length_take]
  omega

/-- Resuming the scan of a longer prefix after the first `k` rows recovers
the map of the longer prefix. -/
theorem buildWattsMap_take_resume (target : Int) (rows : List Row) (k n : Nat)
    (hkn : k ≤ n) :
    buildWattsMap target (buildWattsMap target (fun _ => 0) (rows.take k))
      ((rows.take n).drop k) = buildWattsMap target (fun _ => 0) (rows.take n) := by
  rw [← buildWattsMap_append]
  have h1 : rows.take k = (rows.take n).take k := by
    rw [List.take_take, min_eq_left hkn]
  rw [h1, List.take_append_drop]

theorem faster_step (target : Int) (blinks : Rat) (rows : List Row)
    (priceMap : Nat → Option Rat) (hvalid : ∀ r ∈ rows, validRow target r)
    (k n : Nat) (hk1 : 1 ≤ k) (hkn : k ≤ n) (hn : n ≤ rows.length) :
    calculate_total_cost_and_power_faster target blinks (some (rows.take n))
      (some (buildWattsMap target (fun _ => 0) (rows.take k))) (some priceMap) =
      resultOf blinks priceMap (buildWattsMap target (fun _ => 0) (rows.take n)) := by
  have hsum := sumWatts_take target rows hvalid k (le_trans hkn hn)
  have hm := buildWattsMap_take_resume target rows k n hkn
  simp only [calculate_total_cost_and_power_faster]
  rw [hsum, if_neg (by omega : ¬ k = 0), hm]
  rfl

/-- Folding the incremental calls over the rest of a chunking never changes
the invariant: the accumulated result is the one the last prefix determines. -/
theorem faster_fold (target : Int) (blinks : Rat) (rows : List Row)
    (priceMap : Nat → Option Rat) (hvalid : ∀ r ∈ rows, validRow target r)
    (ns : List Nat) :
    ∀ k : Nat, 1 ≤ k → k ≤ rows.length → List.Chain (· ≤ ·) k ns →
      (∀ n ∈ ns, n ≤ rows.length) →
      ns.foldl
        (fun acc n => calculate_total_cost_and_power_faster target blinks
          (some (rows.take n)) acc.time_to_watts_map (some priceMap))
        (resultOf blinks priceMap (buildWattsMap target (fun _ => 0) (rows.take k))) =
      resultOf blinks priceMap
        (buildWattsMap target (fun _ => 0)
          (rows.take ((k :: ns).getLast (List.cons_ne_nil k ns)))) := by
  induction ns with
  | nil =>
    intro k hk1 hkl _ _
    rfl
  | cons n t ih =>
    intro k hk1 hkl hchain hle
    obtain ⟨hkn, hchain2⟩ := List.chain_cons.mp hchain
    have hnl : n ≤ rows.length := hle n (List.mem_cons_self n t)
    have hstep : calculate_total_cost_and_power_faster target blinks
        (some (rows.take n))
        (resultOf blinks priceMap (buildWattsMap target (fun _ => 0) (rows.take k))).time_to_watts_map
        (some priceMap) =
        resultOf blinks priceMap (buildWattsMap target (fun _ => 0) (rows.take n)) :=
      faster_step target blinks rows priceMap hvalid k n hk1 hkn hnl
    rw [List.foldl_cons, hstep]
    exact ih n (le_trans hk1 hkn) hnl hchain2
      (fun x hx => hle x (List.mem_cons_of_mem n hx))

/-- The full scan computes the same cost and power as the incremental
formulas applied to the full log's watts map. -/
theorem full_scan_eq_resultOf (target : Int) (blinks : Rat) (rows : List Row)
    (priceMap : Nat → Option Rat) (h2 : 2 ≤ rows.length) :
    (calculate_total_cost target blinks (some rows) priceMap).1 =
      (resultOf blinks priceMap (buildWattsMap target (fun _ => 0) rows)).cost ∧
    (calculate_total_cost target blinks (some rows) priceMap).2 =
      (resultOf blinks priceMap (buildWattsMap target (fun _ => 0) rows)).power := by
  have hlt : ¬ rows.length < 2 := Nat.not_lt.mpr h2
  constructor
  · simp only [calculate_total_cost, hlt, if_false, resultOf]
    congr 1
    apply List.map_congr_left
    intro s _
    cases hp : priceMap s with
    | none => simp
    | some p => simp only []; rw [costTerm_full_eq_faster]
  · simp only [calculate_total_cost, hlt, if_false, resultOf]
    congr 1
    apply List.map_congr_left
    intro s _
    exact powerTerm_full_eq_faster _ _

/-- C1 as stated is false on the code: with a valid 2-record day log, the
chunking into successive prefixes with boundaries 0 and 2 (an empty first
chunk) makes every later incremental call scan nothing — its all-zero watts
map is interpreted as "no rows to skip and none to scan" — so the
incremental totals stay 0 while the full scan reports power 2 and cost 2. -/
theorem c1_chunk_boundary_counterexample :
    (runChunks 0 1 [⟨0, 0⟩, ⟨0, 0⟩] (fun s => if s = 0 then some 100 else none)
      [0, 2]).power = 0 ∧
    (runChunks 0 1 [⟨0, 0⟩, ⟨0, 0⟩] (fun s => if s = 0 then some 100 else none)
      [0, 2]).cost = 0 ∧
    (calculate_total_cost 0 1 (some [⟨0, 0⟩, ⟨0, 0⟩])
      (fun s => if s = 0 then some 100 else none)).2 = 2 ∧
    (calculate_total_cost 0 1 (some [⟨0, 0⟩, ⟨0, 0⟩])
      (fun s => if s = 0 then some 100 else none)).1 = 2 := by
  have hrun : runChunks 0 1 [⟨0, 0⟩, ⟨0, 0⟩]
      (fun s => if s = 0 then some 100 else none) [0, 2] =
      calculate_total_cost_and_power_faster 0 1 (some [⟨0, 0⟩, ⟨0, 0⟩])
        (some (fun _ => 0)) (some (fun s => if s = 0 then some 100 else none)) := rfl
  have hm2 : buildWattsMap 0 (fun _ => 0) [(⟨0, 0⟩ : Row), ⟨0, 0⟩] =
      fun s => if s = 0 then 2 else 0 := by
    funext s
    by_cases hs : s = 0 <;> simp [buildWattsMap, bumpRow, hs]
  have hlt : ¬ ([(⟨0, 0⟩ : Row), ⟨0, 0⟩].length < 2) := by decide
  refine ⟨?_, ?_, ?_, ?_⟩
  · rw [hrun]
    simp only [calculate_total_cost_and_power_faster]
    rw [sumWatts_zero, if_pos rfl]
    apply List.sum_eq_zero
    intro x hx
    rcases List.mem_map.mp hx with ⟨s, _, rfl⟩
    simp [buildWattsMap]
  · rw [hrun]
    simp only [calculate_total_cost_and_power_faster]
    rw [sumWatts_zero, if_pos rfl]
    apply List.sum_eq_zero
    intro x hx
    rcases List.mem_map.mp hx with ⟨s, _, rfl⟩
    cases hp : (fun s => if s = 0 then some (100 : Rat) else none) s with
    | none => simp [hp]
    | some p => simp [hp, buildWattsMap]
  · simp only [calculate_total_cost, hlt, if_false]
    rw [hm2]
    norm_num [TIMES, List.range_succ]
  · simp only [calculate_total_cost, hlt, if_false]
    rw [hm2]
    norm_num [TIMES, List.range_succ]

/-- C1 (amended): for every valid day log (at least 2 records, every record
on the target day with a well-formed slot) and every price table,
`calculate_total_cost` on the full log yields the same cost and power totals
as `calculate_total_cost_and_power_faster` applied incrementally under any
chunking of the log into successive prefixes **whose first chunk is
nonempty** (each call receiving the watts map returned by the previous call,
starting from None): such chunk boundaries do not change the totals. -/
theorem c1_incremental_equivalence (target : Int) (blinks : Rat) (rows : List Row)
    (priceMap : Nat → Option Rat) (n1 : Nat) (ns : List Nat)
    (hvalid : ∀ r ∈ rows, validRow target r) (h2 : 2 ≤ rows.length)
    (hn1 : 1 ≤ n1) (hchain : List.Chain (· ≤ ·) n1 ns)
    (hle : ∀ n ∈ n1 :: ns, n ≤ rows.length)
    (hlast : (n1 :: ns).getLast (List.cons_ne_nil n1 ns) = rows.length) :
    (runChunks target blinks rows priceMap (n1 :: ns)).cost =
      (calculate_total_cost target blinks (some rows) priceMap).1 ∧
    (runChunks target blinks rows priceMap (n1 :: ns)).power =
      (calculate_total_cost target blinks (some rows) priceMap).2 := by
  have hrun : runChunks target blinks rows priceMap (n1 :: ns) =
      resultOf blinks priceMap (buildWattsMap target (fun _ => 0) rows) := by
    unfold runChunks
    rw [List.foldl_cons]
    have h0 : calculate_total_cost_and_power_faster target blinks (some (rows.take n1))
        zeroResult.time_to_watts_map (some priceMap) =
        resultOf blinks priceMap (buildWattsMap target (fun _ => 0) (rows.take n1)) :=
      faster_first_call target blinks (rows.take n1) priceMap
    rw [h0, faster_fold target blinks rows priceMap hvalid ns n1 hn1
      (hle n1 (List.mem_cons_self n1 ns)) hchain
      (fun x hx => hle x (List.mem_cons_of_mem n1 hx)), hlast, List.take_length]
  obtain ⟨hc, hp⟩ := full_scan_eq_resultOf target blinks rows priceMap h2
  rw [hrun, hc, hp]
  exact ⟨rfl, rfl⟩

/-- Witness for the amended C1 at a concrete input: a 2-record valid log
chunked as prefixes of lengths 1 and 2. -/
theorem c1_incremental_equivalence_witness :
    (∀ r ∈ ([⟨0, 0⟩, ⟨0, 30⟩] : List Row), validRow 0 r) ∧
      (runChunks 0 600 [⟨0, 0⟩, ⟨0, 30⟩] (fun s => if s = 0 then some 100 else none)
        [1, 2]).power =
      (calculate_total_cost 0 600 (some [⟨0, 0⟩, ⟨0, 30⟩])
        (fun s => if s = 0 then some 100 else none)).2 :=
  ⟨by decide,
    (c1_incremental_equivalence 0 600 [⟨0, 0⟩, ⟨0, 30⟩]
      (fun s => if s = 0 then some 100 else none) 1 [2] (by decide) (by decide)
      (by decide) (List.Chain.cons (by omega) List.Chain.nil) (by decide) rfl).2⟩

/-- Accumulating one optional 1/blinks increment and then `c` more equals
accumulating the combined count. -/
theorem accum_step (v b : Rat) (happen : Prop) [Decidable happen] (c : Nat) :
    (if happen then v + 1 / b else v) + (c : Rat) * (1 / b) =
      v + (((if happen then c + 1 else c) : Nat) : Rat) * (1 / b) := by
  split <;> push_cast <;> ring

/-- The backward scan accumulates, for each window, exactly the count of
lines in the scanned prefix whose timestamp is strictly newer than that
window's threshold (provided the 60-minute threshold is the oldest). -/
theorem gpsScan_spec (lastFiveTime lastHalfTime lastHourTime b : Rat)
    (h5 : lastHourTime ≤ lastFiveTime) (h30 : lastHourTime ≤ lastHalfTime)
    (ls : List (List Rat)) :
    ∀ five thirty sixty : Rat,
      gpsScan lastFiveTime lastHalfTime lastHourTime b ls (five, thirty, sixty) =
        (five + (windowCount lastFiveTime (scanPrefix lastHourTime ls) : Rat) * (1 / b),
         thirty + (windowCount lastHalfTime (scanPrefix lastHourTime ls) : Rat) * (1 / b),
         sixty + (windowCount lastHourTime (scanPrefix lastHourTime ls) : Rat) * (1 / b)) := by
  induction ls with
  | nil =>
    intro five thirty sixty
    simp [gpsScan, scanPrefix, windowCount]
  | cons line rest ih =>
    intro five thirty sixty
    by_cases hlen : 1 < line.length
    · by_cases hold : tsOf line < lastHourTime
      · have hnot5 : ¬ lastFiveTime < tsOf line := by linarith
        have hnot30 : ¬ lastHalfTime < tsOf line := by linarith
        have hnot60 : ¬ lastHourTime < tsOf line := by linarith
        have hpref : scanPrefix lastHourTime (line :: rest) = [] := by
          simp [scanPrefix, List.takeWhile_cons, not_le.mpr hold]
        rw [hpref]
        simp only [gpsScan, if_pos hlen, if_pos hold, if_neg hnot5, if_neg hnot30,
          if_neg hnot60, windowCount, List.countP_nil]
        push_cast
        refine congrArg₂ Prod.mk (by ring) (congrArg₂ Prod.mk (by ring) (by ring))
      · have hge : lastHourTime ≤ tsOf line := not_lt.mp hold
        have hpref : scanPrefix lastHourTime (line :: rest) =
            line :: scanPrefix lastHourTime rest := by
          simp [scanPrefix, List.takeWhile_cons, hlen, hge]
        rw [hpref]
        simp only [gpsScan, if_pos hlen, if_neg hold]
        rw [ih]
        simp only [windowCount, List.countP_cons]
        refine congrArg₂ Prod.mk ?_ (congrArg₂ Prod.mk ?_ ?_)
        · rw [accum_step five b (lastFiveTime < tsOf line)]
          by_cases hc : lastFiveTime < tsOf line <;> simp [hc, windowCount]
        · rw [accum_step thirty b (lastHalfTime < tsOf line)]
          by_cases hc : lastHalfTime < tsOf line <;> simp [hc, windowCount]
        · rw [accum_step sixty b (lastHourTime < tsOf line)]
          by_cases hc : lastHourTime < tsOf line <;> simp [hc, windowCount]
    · have hpref : scanPrefix lastHourTime (line :: rest) = [] := by
        simp [scanPrefix, List.takeWhile_cons, hlen]
      rw [hpref]
      simp only [gpsScan, if_neg hlen, windowCount, List.countP_nil]
      push_cast
      refine congrArg₂ Prod.mk (by ring) (congrArg₂ Prod.mk (by ring) (by ring))

/-- C3: `get_power_stats_from_past` counts a pulse toward the 5/30/60-minute
windows exactly when its timestamp is strictly greater than now-300 /
now-1800 / now-3600, all three windows accumulated in one backward pass over
the prefix delimited by the two scan-stop conditions (the first row strictly
older than the 60-minute threshold, and the first line with fewer than 2
comma-separated fields); in particular with pulses at t-400s, t-200s, t-10s
and now = t (read newest first), the 5-minute window counts exactly the last
two pulses and the 30- and 60-minute windows count all three. -/
theorem c3_trailing_windows :
    (∀ (fromTime blinksPerKilowatt : Rat) (ls : List (List Rat)),
      get_power_stats_from_past fromTime blinksPerKilowatt ls =
        ((windowCount (fromTime - 300) (scanPrefix (fromTime - 3600) ls) : Rat) *
          (1 / blinksPerKilowatt),
         (windowCount (fromTime - 1800) (scanPrefix (fromTime - 3600) ls) : Rat) *
          (1 / blinksPerKilowatt),
         (windowCount (fromTime - 3600) (scanPrefix (fromTime - 3600) ls) : Rat) *
          (1 / blinksPerKilowatt))) ∧
    get_power_stats_from_past 10000 1 [[0, 9990], [0, 9800], [0, 9600]] = (2, 3, 3) := by
  constructor
  · intro fromTime blinksPerKilowatt ls
    have h := gpsScan_spec (fromTime - 300) (fromTime - 1800) (fromTime - 3600)
      blinksPerKilowatt (by linarith) (by linarith) ls 0 0 0
    simpa [get_power_stats_from_past] using h
  · norm_num [get_power_stats_from_past, gpsScan, tsOf]

theorem one_le_charUtf8Size (c : Char) : 1 ≤ charUtf8Size c := by
  unfold charUtf8Size
  split
  · omega
  split
  · omega
  split <;> omega

theorem charUtf8Size_eq_one_iff (c : Char) : charUtf8Size c = 1 ↔ c.toNat < 128 := by
  unfold charUtf8Size
  by_cases h : c.toNat < 128
  · simp [h]
  · simp only [h, if_false, iff_false]
    split
    · omega
    split <;> omega

theorem length_le_utf8Len (l : List Char) : l.length ≤ utf8Len l := by
  induction l with
  | nil => simp [utf8Len]
  | cons c t ih =>
    have := one_le_charUtf8Size c
    simp only [utf8Len, List.map_cons, List.sum_cons, List.length_cons] at ih ⊢
    omega

/-- `len(s) == len(s.encode())` holds exactly when every character is ASCII
(code point below 128). -/
theorem is_ascii_iff (l : List Char) : is_ascii l = true ↔ ∀ c ∈ l, c.toNat < 128 := by
  simp only [is_ascii, decide_eq_true_eq]
  induction l with
  | nil => simp [utf8Len]
  | cons c t ih =>
    have h1 := one_le_charUtf8Size c
    have h2 := length_le_utf8Len t
    have hsplit : ((c :: t).length = utf8Len (c :: t)) ↔
        (charUtf8Size c = 1 ∧ t.length = utf8Len t) := by
      simp only [utf8Len, List.map_cons, List.sum_cons, List.length_cons]
      simp only [utf8Len] at h2
      omega
    rw [hsplit, charUtf8Size_eq_one_iff, ih]
    simp [List.forall_mem_cons]

/-- The position-wise description of repairing the two most-recently
modified files: with `n` files listed oldest first, position `i` is repaired
exactly when `n - 2 ≤ i` (all positions when fewer than two files exist). -/
theorem latest_two_positions (files : List (List (List Char))) (i : Nat) :
    (fix_data_corruption_of_latest_two_files files)[i]? =
      (files[i]?).map
        (fun f => if files.length - 2 ≤ i then fix_text_corruption f else f) := by
  set n := files.length with hn
  have hlenF : (fix_data_corruption_of_latest_two_files files).length = n := by
    simp [fix_data_corruption_of_latest_two_files, List.enum_length]
  by_cases hi : i < n
  · have hi1 : i < ((files.reverse.enum.map
        (fun p => if p.1 < 2 then fix_text_corruption p.2 else p.2)).length) := by
      simp [List.enum_length, hi]
    have hrev : files.reverse[n - 1 - i]? = files[i]? := by
      have h2 : n - 1 - i < files.reverse.length := by
        simp only [List.length_reverse]
        omega
      rw [List.getElem?_reverse (by simpa using h2)]
      congr 1
      omega
    unfold fix_data_corruption_of_latest_two_files
    rw [List.getElem?_reverse hi1]
    simp only [List.length_map, List.enum_length, List.length_reverse]
    rw [List.getElem?_map, List.getElem?_enum, hrev, Option.map_map]
    have hcond : (n - 1 - i < 2) = (n - 2 ≤ i) := propext (by omega)
    have hfun : ((fun p : Nat × List (List Char) =>
          if p.1 < 2 then fix_text_corruption p.2 else p.2) ∘
        (fun a => (n - 1 - i, a))) =
        (fun f => if n - 2 ≤ i then fix_text_corruption f else f) := by
      funext f
      show (if n - 1 - i < 2 then fix_text_corruption f else f) = _
      exact if_congr (by omega) rfl rfl
    rw [hfun]
  · have h1 : (fix_data_corruption_of_latest_two_files files)[i]? = none :=
      List.getElem?_eq_none (by omega)
    have h2 : files[i]? = none := List.getElem?_eq_none (by omega)
    rw [h1, h2]
    rfl

/-- C7: the corruption-repair pass keeps a line if and only if it has
exactly 5 comma-separated fields and only ASCII characters, preserving the
order of kept lines, and it is applied to exactly the two most-recently
modified files of the data directory (all files when fewer than two exist),
leaving every other file unchanged. -/
theorem c7_corruption_repair :
    (∀ lines : List (List Char), (fix_text_corruption lines).Sublist lines) ∧
    (∀ (lines : List (List Char)) (l : List Char),
      l ∈ fix_text_corruption lines ↔
        l ∈ lines ∧ (l.count ',' + 1 = 5 ∧ ∀ c ∈ l, c.toNat < 128)) ∧
    (∀ (files : List (List (List Char))) (i : Nat),
      (fix_data_corruption_of_latest_two_files files)[i]? =
        (files[i]?).map
          (fun f => if files.length - 2 ≤ i then fix_text_corruption f else f)) := by
  refine ⟨?_, ?_, latest_two_positions⟩
  · intro lines
    exact List.filter_sublist lines
  · intro lines l
    rw [fix_text_corruption, List.mem_filter, Bool.and_eq_true, decide_eq_true_eq,
      is_ascii_iff]

theorem appendEvent_fs_same (s : SynthState) (day : Int) (r : Record) :
    (appendEvent s day r).fs day = some ((s.fs day).getD [] ++ [r]) := by
  simp [appendEvent, writeReading]

theorem appendEvent_fs_other (s : SynthState) (day : Int) (r : Record) (d : Int)
    (h : d ≠ day) : (appendEvent s day r).fs d = s.fs d := by
  simp [appendEvent, writeReading, h]

theorem lineCount_appendEvent_same (s : SynthState) (day : Int) (r : Record) :
    lineCountFS (appendEvent s day r).fs day = lineCountFS s.fs day + 1 := by
  simp [lineCountFS, appendEvent, writeReading]

theorem lineCountFS_of_none (fs : FS) (day : Int) (h : fs day = none) :
    lineCountFS fs day = 0 := by
  simp [lineCountFS, h]

theorem lineCountFS_of_some (fs : FS) (day : Int) (l : List Record)
    (h : fs day = some l) : lineCountFS fs day = l.length := by
  simp [lineCountFS, h]

/-- C9: a positive lux reading that differs from the previous one by less
than the configured minimum difference produces no PulseRecord and leaves
the monitor's state and the file system untouched: the iteration only
sleeps and retries. -/
theorem c9_debounce_no_effect (cfg : MonConfig) (st : MonState) (fs : FS)
    (currentLux now : Rat) (h1 : 0 < currentLux)
    (h2 : |st.previous_lux - currentLux| < cfg.minLuxDifference) :
    monitorStep cfg st fs currentLux now = (st, fs, []) := by
  simp [monitorStep, h1, h2]

/-- Witness for C9 at a concrete input. -/
theorem c9_debounce_no_effect_witness :
    (0 : Rat) < 1 ∧ |(1 : Rat) - 1| < 2 ∧
      monitorStep ⟨2, 17/10, 3⟩ ⟨1, -1, -1, "fixed", -1, 0⟩ (fun _ => none) 1 5 =
        (⟨1, -1, -1, "fixed", -1, 0⟩, (fun _ => none), []) :=
  ⟨by norm_num, by norm_num,
    c9_debounce_no_effect ⟨2, 17/10, 3⟩ ⟨1, -1, -1, "fixed", -1, 0⟩ (fun _ => none) 1 5
      (by norm_num) (by norm_num)⟩

/-- C4 as stated is false on the code: for the real-pulse append the
pre-seed of a missing day file happens only when BOTH the previous and the
previous-previous pulse times exist.  With previous-previous = -1 but a
previous pulse at t = 50, a pulse at t = 60 on a missing day file writes
only the current record: the preceding in-memory pulse is not written
first (the stitching copy to the previous day still happens). -/
theorem c4_preseed_counterexample :
    (monitorStep ⟨1, 100, 5⟩ ⟨0, -1, -1, "original", 50, 0⟩ (fun _ => none) 5 60).2.1 0 =
      some [⟨5, 60, 0, "original"⟩] := by
  have h1 : (0 : Rat) < 5 := by norm_num
  have h2 : ¬ |(0 : Rat) - 5| < 1 := by
    rw [show |(0 : Rat) - 5| = 5 by norm_num]
    norm_num
  have hguard : ¬ (((0:Rat) < -1 ∧ (0:Rat) < 50) ∧
      (((50:Rat) - -1) * 100 < (60:Rat) - 50 ∧ (0:Nat) < 5)) :=
    fun h => absurd h.1.1 (by norm_num)
  have hstep : (monitorStep ⟨1, 100, 5⟩ ⟨0, -1, -1, "original", 50, 0⟩ (fun _ => none) 5 60).2.1 =
      (realWrite 60 5 ⟨fun _ => none, [], 0, -1, 50, "original"⟩).fs := by
    simp only [monitorStep, h1, h2, hguard, if_true, if_false]
  rw [hstep]
  have hday : dayOf 60 = 0 := by
    norm_num [dayOf, Int.floor_eq_iff]
  have hslot : slotMinOf 60 = 0 := by
    norm_num [slotMinOf, Int.floor_eq_iff]
    decide
  have hneg : ¬ ((0:Rat) < -1) := by norm_num
  simp only [realWrite, hneg, false_and, if_false]
  have hlc : lineCountFS (appendEvent ⟨fun _ => none, [], 0, -1, 50, "original"⟩ (dayOf 60)
      ⟨5, 60, slotMinOf 60, "original"⟩).fs (dayOf 60) = 1 := by
    rw [lineCount_appendEvent_same, lineCountFS_of_none]
    rfl
  rw [if_pos ⟨by rw [hlc]; omega, (by norm_num : (0:Rat) < 50)⟩]
  rw [appendEvent_fs_other _ _ _ _ (by rw [hday]; omega)]
  rw [hday, hslot, appendEvent_fs_same]
  rfl

/-- C4 (amended): for every pulse append by the monitor.  Real-pulse append:
when the target day's file does not exist AND both the previous and the
previous-previous pulse times exist, the immediately preceding in-memory
pulse (original timestamp and origin) is written first, and the just-written
record (the file's 2nd line) is also appended identically to the previous
day's file; an append that lands as the 1st or 2nd line of an existing file
with a previous pulse time also stitches to the previous day, and an append
to a file with at least 2 lines touches no other day file.  Synthesized
append: the pre-seed happens whenever the file is missing (both previous
times exist inside the smoothing branch by construction) and the stitching
needs no previous-time check. -/
theorem c4_day_boundary_writes (s : SynthState) (t lux pt plux ct clux : Rat) (num : Int) (idx : Nat) :
    ((0 < s.previous_previous_time → 0 < s.previous_time → s.fs (dayOf t) = none →
      (realWrite t lux s).fs (dayOf t) =
        some [⟨s.previous_lux, s.previous_time, slotMinOf s.previous_time, s.previous_time_origin⟩,
              ⟨lux, t, slotMinOf t, "original"⟩] ∧
      (realWrite t lux s).fs (dayOf t - 1) =
        some ((s.fs (dayOf t - 1)).getD [] ++ [⟨lux, t, slotMinOf t, "original"⟩])) ∧
    (∀ l, s.fs (dayOf t) = some l → 2 ≤ l.length →
      (realWrite t lux s).fs (dayOf t) = some (l ++ [⟨lux, t, slotMinOf t, "original"⟩]) ∧
      (realWrite t lux s).fs (dayOf t - 1) = s.fs (dayOf t - 1)) ∧
    (∀ l, s.fs (dayOf t) = some l → l.length ≤ 1 → 0 < s.previous_time →
      (realWrite t lux s).fs (dayOf t) = some (l ++ [⟨lux, t, slotMinOf t, "original"⟩]) ∧
      (realWrite t lux s).fs (dayOf t - 1) =
        some ((s.fs (dayOf t - 1)).getD [] ++ [⟨lux, t, slotMinOf t, "original"⟩]))) ∧
    ((s.fs (dayOf (pt + ((ct - pt) / (num : Rat)) * ((idx : Rat) + 1))) = none →
      (synthIter pt plux ct clux num idx s).fs (dayOf (pt + ((ct - pt) / (num : Rat)) * ((idx : Rat) + 1))) =
        some [⟨s.previous_lux, s.previous_time, slotMinOf s.previous_time, s.previous_time_origin⟩,
              ⟨((clux + plux) / 2) + 1 * (idx : Rat), pt + ((ct - pt) / (num : Rat)) * ((idx : Rat) + 1),
                slotMinOf (pt + ((ct - pt) / (num : Rat)) * ((idx : Rat) + 1)), "fixed"⟩] ∧
      (synthIter pt plux ct clux num idx s).fs (dayOf (pt + ((ct - pt) / (num : Rat)) * ((idx : Rat) + 1)) - 1) =
        some ((s.fs (dayOf (pt + ((ct - pt) / (num : Rat)) * ((idx : Rat) + 1)) - 1)).getD [] ++
          [⟨((clux + plux) / 2) + 1 * (idx : Rat), pt + ((ct - pt) / (num : Rat)) * ((idx : Rat) + 1),
            slotMinOf (pt + ((ct - pt) / (num : Rat)) * ((idx : Rat) + 1)), "fixed"⟩])) ∧
    (∀ l, s.fs (dayOf (pt + ((ct - pt) / (num : Rat)) * ((idx : Rat) + 1))) = some l → 2 ≤ l.length →
      (synthIter pt plux ct clux num idx s).fs (dayOf (pt + ((ct - pt) / (num : Rat)) * ((idx : Rat) + 1))) =
        some (l ++ [⟨((clux + plux) / 2) + 1 * (idx : Rat), pt + ((ct - pt) / (num : Rat)) * ((idx : Rat) + 1),
          slotMinOf (pt + ((ct - pt) / (num : Rat)) * ((idx : Rat) + 1)), "fixed"⟩]) ∧
      (synthIter pt plux ct clux num idx s).fs (dayOf (pt + ((ct - pt) / (num : Rat)) * ((idx : Rat) + 1)) - 1) =
        s.fs (dayOf (pt + ((ct - pt) / (num : Rat)) * ((idx : Rat) + 1)) - 1)) ∧
    (∀ l, s.fs (dayOf (pt + ((ct - pt) / (num : Rat)) * ((idx : Rat) + 1))) = some l → l.length ≤ 1 →
      (synthIter pt plux ct clux num idx s).fs (dayOf (pt + ((ct - pt) / (num : Rat)) * ((idx : Rat) + 1)) - 1) =
        some ((s.fs (dayOf (pt + ((ct - pt) / (num : Rat)) * ((idx : Rat) + 1)) - 1)).getD [] ++
          [⟨((clux + plux) / 2) + 1 * (idx : Rat), pt + ((ct - pt) / (num : Rat)) * ((idx : Rat) + 1),
            slotMinOf (pt + ((ct - pt) / (num : Rat)) * ((idx : Rat) + 1)), "fixed"⟩]))) := by
  have hd : ∀ d : Int, d - 1 ≠ d := fun d => by omega
  have hd2 : ∀ d : Int, d ≠ d - 1 := fun d => by omega
  constructor
  · refine ⟨?_, ?_, ?_⟩
    · intro hpp hpt hnone
      simp only [realWrite]
      simp only [if_pos (show 0 < s.previous_previous_time ∧ 0 < s.previous_time ∧ s.fs (dayOf t) = none from ⟨hpp, hpt, hnone⟩)]
      have hl1 : (appendEvent s (dayOf t)
          ⟨s.previous_lux, s.previous_time, slotMinOf s.previous_time, s.previous_time_origin⟩).fs (dayOf t) =
          some [⟨s.previous_lux, s.previous_time, slotMinOf s.previous_time, s.previous_time_origin⟩] := by
        rw [appendEvent_fs_same, hnone]
        rfl
      have hl2 : (appendEvent (appendEvent s (dayOf t)
          ⟨s.previous_lux, s.previous_time, slotMinOf s.previous_time, s.previous_time_origin⟩) (dayOf t)
          ⟨lux, t, slotMinOf t, "original"⟩).fs (dayOf t) =
          some [⟨s.previous_lux, s.previous_time, slotMinOf s.previous_time, s.previous_time_origin⟩,
                ⟨lux, t, slotMinOf t, "original"⟩] := by
        rw [appendEvent_fs_same, hl1]
        rfl
      have hlc : lineCountFS (appendEvent (appendEvent s (dayOf t)
          ⟨s.previous_lux, s.previous_time, slotMinOf s.previous_time, s.previous_time_origin⟩) (dayOf t)
          ⟨lux, t, slotMinOf t, "original"⟩).fs (dayOf t) = 2 := by
        rw [lineCountFS_of_some _ _ _ hl2]
        rfl
      rw [if_pos ⟨hlc.le, hpt⟩]
      constructor
      · rw [appendEvent_fs_other _ _ _ _ (hd2 (dayOf t))]
        exact hl2
      · rw [appendEvent_fs_same, appendEvent_fs_other _ _ _ _ (hd (dayOf t)),
          appendEvent_fs_other _ _ _ _ (hd (dayOf t))]
    · intro l hsome hlen
      have hnot : ¬ (0 < s.previous_previous_time ∧ 0 < s.previous_time ∧
          s.fs (dayOf t) = none) := by
        rintro ⟨-, -, h⟩
        rw [hsome] at h
        cases h
      simp only [realWrite]
      simp only [if_neg hnot]
      have hl2 : (appendEvent s (dayOf t) ⟨lux, t, slotMinOf t, "original"⟩).fs (dayOf t) =
          some (l ++ [⟨lux, t, slotMinOf t, "original"⟩]) := by
        rw [appendEvent_fs_same, hsome]
        rfl
      have hlc : lineCountFS (appendEvent s (dayOf t)
          ⟨lux, t, slotMinOf t, "original"⟩).fs (dayOf t) = l.length + 1 := by
        rw [lineCountFS_of_some _ _ _ hl2]
        simp
      rw [if_neg (by
        rintro ⟨ha, -⟩
        rw [hlc] at ha
        omega)]
      exact ⟨hl2, appendEvent_fs_other _ _ _ _ (hd (dayOf t))⟩
    · intro l hsome hlen hpt
      have hnot : ¬ (0 < s.previous_previous_time ∧ 0 < s.previous_time ∧
          s.fs (dayOf t) = none) := by
        rintro ⟨-, -, h⟩
        rw [hsome] at h
        cases h
      simp only [realWrite]
      simp only [if_neg hnot]
      have hl2 : (appendEvent s (dayOf t) ⟨lux, t, slotMinOf t, "original"⟩).fs (dayOf t) =
          some (l ++ [⟨lux, t, slotMinOf t, "original"⟩]) := by
        rw [appendEvent_fs_same, hsome]
        rfl
      have hlc : lineCountFS (appendEvent s (dayOf t)
          ⟨lux, t, slotMinOf t, "original"⟩).fs (dayOf t) = l.length + 1 := by
        rw [lineCountFS_of_some _ _ _ hl2]
        simp
      rw [if_pos ⟨by rw [hlc]; omega, hpt⟩]
      constructor
      · rw [appendEvent_fs_other _ _ _ _ (hd2 (dayOf t))]
        exact hl2
      · rw [appendEvent_fs_same, appendEvent_fs_other _ _ _ _ (hd (dayOf t))]
  · refine ⟨?_, ?_, ?_⟩
    · intro hnone
      simp only [synthIter]
      simp only [if_pos hnone]
      have hl1 : (appendEvent s (dayOf (pt + ((ct - pt) / (num : Rat)) * ((idx : Rat) + 1)))
          ⟨s.previous_lux, s.previous_time, slotMinOf s.previous_time, s.previous_time_origin⟩).fs
          (dayOf (pt + ((ct - pt) / (num : Rat)) * ((idx : Rat) + 1))) =
          some [⟨s.previous_lux, s.previous_time, slotMinOf s.previous_time, s.previous_time_origin⟩] := by
        rw [appendEvent_fs_same, hnone]
        rfl
      have hl2 : (appendEvent (appendEvent s (dayOf (pt + ((ct - pt) / (num : Rat)) * ((idx : Rat) + 1)))
          ⟨s.previous_lux, s.previous_time, slotMinOf s.previous_time, s.previous_time_origin⟩)
          (dayOf (pt + ((ct - pt) / (num : Rat)) * ((idx : Rat) + 1)))
          ⟨((clux + plux) / 2) + 1 * (idx : Rat), pt + ((ct - pt) / (num : Rat)) * ((idx : Rat) + 1),
            slotMinOf (pt + ((ct - pt) / (num : Rat)) * ((idx : Rat) + 1)), "fixed"⟩).fs
          (dayOf (pt + ((ct - pt) / (num : Rat)) * ((idx : Rat) + 1))) =
          some [⟨s.previous_lux, s.previous_time, slotMinOf s.previous_time, s.previous_time_origin⟩,
            ⟨((clux + plux) / 2) + 1 * (idx : Rat), pt + ((ct - pt) / (num : Rat)) * ((idx : Rat) + 1),
              slotMinOf (pt + ((ct - pt) / (num : Rat)) * ((idx : Rat) + 1)), "fixed"⟩] := by
        rw [appendEvent_fs_same, hl1]
        rfl
      have hlc : lineCountFS (appendEvent (appendEvent s
          (dayOf (pt + ((ct - pt) / (num : Rat)) * ((idx : Rat) + 1)))
          ⟨s.previous_lux, s.previous_time, slotMinOf s.previous_time, s.previous_time_origin⟩)
          (dayOf (pt + ((ct - pt) / (num : Rat)) * ((idx : Rat) + 1)))
          ⟨((clux + plux) / 2) + 1 * (idx : Rat), pt + ((ct - pt) / (num : Rat)) * ((idx : Rat) + 1),
            slotMinOf (pt + ((ct - pt) / (num : Rat)) * ((idx : Rat) + 1)), "fixed"⟩).fs
          (dayOf (pt + ((ct - pt) / (num : Rat)) * ((idx : Rat) + 1))) = 2 := by
        rw [lineCountFS_of_some _ _ _ hl2]
        rfl
      rw [if_pos hlc.le]
      constructor
      · rw [appendEvent_fs_other _ _ _ _ (hd2 _)]
        exact hl2
      · rw [appendEvent_fs_same, appendEvent_fs_other _ _ _ _ (hd _),
          appendEvent_fs_other _ _ _ _ (hd _)]
    · intro l hsome hlen
      have hnot : s.fs (dayOf (pt + ((ct - pt) / (num : Rat)) * ((idx : Rat) + 1))) ≠ none := by
        rw [hsome]
        exact fun h => by cases h
      simp only [synthIter]
      simp only [if_neg hnot]
      have hl2 : (appendEvent s (dayOf (pt + ((ct - pt) / (num : Rat)) * ((idx : Rat) + 1)))
          ⟨((clux + plux) / 2) + 1 * (idx : Rat), pt + ((ct - pt) / (num : Rat)) * ((idx : Rat) + 1),
            slotMinOf (pt + ((ct - pt) / (num : Rat)) * ((idx : Rat) + 1)), "fixed"⟩).fs
          (dayOf (pt + ((ct - pt) / (num : Rat)) * ((idx : Rat) + 1))) =
          some (l ++ [⟨((clux + plux) / 2) + 1 * (idx : Rat),
            pt + ((ct - pt) / (num : Rat)) * ((idx : Rat) + 1),
            slotMinOf (pt + ((ct - pt) / (num : Rat)) * ((idx : Rat) + 1)), "fixed"⟩]) := by
        rw [appendEvent_fs_same, hsome]
        rfl
      have hlc : lineCountFS (appendEvent s (dayOf (pt + ((ct - pt) / (num : Rat)) * ((idx : Rat) + 1)))
          ⟨((clux + plux) / 2) + 1 * (idx : Rat), pt + ((ct - pt) / (num : Rat)) * ((idx : Rat) + 1),
            slotMinOf (pt + ((ct - pt) / (num : Rat)) * ((idx : Rat) + 1)), "fixed"⟩).fs
          (dayOf (pt + ((ct - pt) / (num : Rat)) * ((idx : Rat) + 1))) = l.length + 1 := by
        rw [lineCountFS_of_some _ _ _ hl2]
        simp
      rw [if_neg (by
        intro ha
        rw [hlc] at ha
        omega)]
      exact ⟨hl2, appendEvent_fs_other _ _ _ _ (hd _)⟩
    · intro l hsome hlen
      have hnot : s.fs (dayOf (pt + ((ct - pt) / (num : Rat)) * ((idx : Rat) + 1))) ≠ none := by
        rw [hsome]
        exact fun h => by cases h
      simp only [synthIter]
      simp only [if_neg hnot]
      have hl2 : (appendEvent s (dayOf (pt + ((ct - pt) / (num : Rat)) * ((idx : Rat) + 1)))
          ⟨((clux + plux) / 2) + 1 * (idx : Rat), pt + ((ct - pt) / (num : Rat)) * ((idx : Rat) + 1),
            slotMinOf (pt + ((ct - pt) / (num : Rat)) * ((idx : Rat) + 1)), "fixed"⟩).fs
          (dayOf (pt + ((ct - pt) / (num : Rat)) * ((idx : Rat) + 1))) =
          some (l ++ [⟨((clux + plux) / 2) + 1 * (idx : Rat),
            pt + ((ct - pt) / (num : Rat)) * ((idx : Rat) + 1),
            slotMinOf (pt + ((ct - pt) / (num : Rat)) * ((idx : Rat) + 1)), "fixed"⟩]) := by
        rw [appendEvent_fs_same, hsome]
        rfl
      have hlc : lineCountFS (appendEvent s (dayOf (pt + ((ct - pt) / (num : Rat)) * ((idx : Rat) + 1)))
          ⟨((clux + plux) / 2) + 1 * (idx : Rat), pt + ((ct - pt) / (num : Rat)) * ((idx : Rat) + 1),
            slotMinOf (pt + ((ct - pt) / (num : Rat)) * ((idx : Rat) + 1)), "fixed"⟩).fs
          (dayOf (pt + ((ct - pt) / (num : Rat)) * ((idx : Rat) + 1))) = l.length + 1 := by
        rw [lineCountFS_of_some _ _ _ hl2]
        simp
      rw [if_pos (by rw [hlc]; omega)]
      rw [appendEvent_fs_same, appendEvent_fs_other _ _ _ _ (hd _)]

/-- Witness for the amended C4 at a concrete input: a pulse at t = 60 on a
missing day file with previous pulses at 10 and 50. -/
theorem c4_day_boundary_writes_witness :
    (0 : Rat) < 10 ∧
      ((realWrite 60 5 ⟨fun _ => none, [], 2, 10, 50, "original"⟩).fs (dayOf 60) =
        some [⟨2, 50, slotMinOf 50, "original"⟩, ⟨5, 60, slotMinOf 60, "original"⟩] ∧
      (realWrite 60 5 ⟨fun _ => none, [], 2, 10, 50, "original"⟩).fs (dayOf 60 - 1) =
        some [⟨5, 60, slotMinOf 60, "original"⟩]) :=
  ⟨by norm_num,
    (c4_day_boundary_writes ⟨fun _ => none, [], 2, 10, 50, "original"⟩ 60 5 0 0 0 0 1 0).1.1
      (by norm_num) (by norm_num) rfl⟩

theorem roundHalfEven_pos (x : Rat) (hx : 1 < x) : 1 ≤ roundHalfEven x := by
  have hf : 1 ≤ ⌊x⌋ := Int.le_floor.mpr (by exact_mod_cast hx.le)
  unfold roundHalfEven
  dsimp only
  split
  · exact hf
  split
  · omega
  split <;> omega

theorem dayOf_mono (a b : Rat) (h : a ≤ b) : dayOf a ≤ dayOf b := by
  unfold dayOf
  exact Int.floor_le_floor (div_le_div_of_nonneg_right h (by norm_num))

theorem dayOf_squeeze (a t b : Rat) (h1 : a ≤ t) (h2 : t ≤ b)
    (h : dayOf a = dayOf b) : dayOf t = dayOf b :=
  le_antisymm (dayOf_mono t b h2) (h ▸ dayOf_mono a t h1)

theorem synthFold (pt plux now lux : Rat) (N : Int) (D : Int) (fs0 : FS) (ev0 : List Ev)
    (pl0 ppt0 pt0 : Rat) (po0 : String) (l0 : List Record)
    (hfs0 : fs0 D = some l0) (hl0 : 2 ≤ l0.length) (k : Nat)
    (hdays : ∀ i : Nat, i < k →
      dayOf (pt + ((now - pt) / (N : Rat)) * ((i : Rat) + 1)) = D) :
    ((List.range k).foldl (fun s i => synthIter pt plux now lux N i s)
        ⟨fs0, ev0, pl0, ppt0, pt0, po0⟩).events =
      ev0 ++ (List.range k).map (fun (i : Nat) => (⟨D, ⟨(lux + plux) / 2 + 1 * (i : Rat),
        pt + ((now - pt) / (N : Rat)) * ((i : Rat) + 1),
        slotMinOf (pt + ((now - pt) / (N : Rat)) * ((i : Rat) + 1)), "fixed"⟩⟩ : Ev)) ∧
    ((List.range k).foldl (fun s i => synthIter pt plux now lux N i s)
        ⟨fs0, ev0, pl0, ppt0, pt0, po0⟩).fs D =
      some (l0 ++ (List.range k).map (fun (i : Nat) => (⟨(lux + plux) / 2 + 1 * (i : Rat),
        pt + ((now - pt) / (N : Rat)) * ((i : Rat) + 1),
        slotMinOf (pt + ((now - pt) / (N : Rat)) * ((i : Rat) + 1)), "fixed"⟩ : Record))) ∧
    (∀ d : Int, d ≠ D →
      ((List.range k).foldl (fun s i => synthIter pt plux now lux N i s)
        ⟨fs0, ev0, pl0, ppt0, pt0, po0⟩).fs d = fs0 d) := by
  induction k with
  | zero =>
    refine ⟨by simp, by simp [hfs0], fun d _ => rfl⟩
  | succ k ih =>
    have hdays2 : ∀ i : Nat, i < k →
        dayOf (pt + ((now - pt) / (N : Rat)) * ((i : Rat) + 1)) = D :=
      fun i hi => hdays i (by omega)
    obtain ⟨he, hf, ho⟩ := ih hdays2
    rw [List.range_succ, List.foldl_append, List.foldl_cons, List.foldl_nil]
    set S : SynthState := (List.range k).foldl (fun s i => synthIter pt plux now lux N i s)
      ⟨fs0, ev0, pl0, ppt0, pt0, po0⟩ with hS
    have hdk : dayOf (pt + ((now - pt) / (N : Rat)) * ((k : Rat) + 1)) = D :=
      hdays k (by omega)
    have hne : S.fs D ≠ none := by
      rw [hf]
      simp
    simp only [synthIter, hdk]
    simp only [if_neg hne]
    have happ : (appendEvent S D
        ⟨(lux + plux) / 2 + 1 * (k : Rat),
          pt + ((now - pt) / (N : Rat)) * ((k : Rat) + 1),
          slotMinOf (pt + ((now - pt) / (N : Rat)) * ((k : Rat) + 1)), "fixed"⟩).fs D =
        some ((l0 ++ (List.range k).map (fun (i : Nat) => (⟨(lux + plux) / 2 + 1 * (i : Rat),
          pt + ((now - pt) / (N : Rat)) * ((i : Rat) + 1),
          slotMinOf (pt + ((now - pt) / (N : Rat)) * ((i : Rat) + 1)), "fixed"⟩ : Record))) ++
          [⟨(lux + plux) / 2 + 1 * (k : Rat),
            pt + ((now - pt) / (N : Rat)) * ((k : Rat) + 1),
            slotMinOf (pt + ((now - pt) / (N : Rat)) * ((k : Rat) + 1)), "fixed"⟩]) := by
      rw [appendEvent_fs_same, hf]
      rfl
    have hlc : lineCountFS (appendEvent S D
        ⟨(lux + plux) / 2 + 1 * (k : Rat),
          pt + ((now - pt) / (N : Rat)) * ((k : Rat) + 1),
          slotMinOf (pt + ((now - pt) / (N : Rat)) * ((k : Rat) + 1)), "fixed"⟩).fs D =
        l0.length + k + 1 := by
      rw [lineCountFS_of_some _ _ _ happ]
      simp
      omega
    rw [if_neg (by
      intro hcond
      rw [hlc] at hcond
      omega)]
    refine ⟨?_, ?_, ?_⟩
    · show (appendEvent S D _).events = _
      simp only [appendEvent]
      rw [he]
      simp [List.append_assoc]
    · show (appendEvent S D _).fs D = _
      rw [happ]
      simp [List.append_assoc]
    · intro d hd
      show (appendEvent S D _).fs d = _
      rw [appendEvent_fs_other _ _ _ _ hd, ho d hd]

/-- C2: in the monitor loop, whenever previous and previous-previous pulse
times both exist, currentInterval exceeds previousInterval times the
configured outlier multiplier, and the outlier-fix counter is below the
configured limit, exactly N - 1 synthesized pulses are appended to the
current day's file, where N = round(currentInterval / previousInterval)
(numpy round half to even), each with origin tag "fixed", timestamps
strictly increasing and lying strictly between the two real endpoint times,
evenly spaced at intervals of currentInterval / N.  (Stated in steady state:
the day file already has at least 2 lines and the gap does not cross
midnight, so the day-boundary writes of C4 do not fire, and the wall clock
is increasing with a multiplier of at least 1.) -/
theorem c2_gap_smoothing (cfg : MonConfig) (st : MonState) (fs : FS) (lux now : Rat)
    (l0 : List Record) (N : Int) (evs : List Ev)
    (hN_def : N = roundHalfEven ((now - st.current_time) /
      (st.current_time - st.previous_time)))
    (hevs_def : evs = ((monitorStep cfg st fs lux now).2.2).filter
      (fun e => e.record.origin == "fixed"))
    (hlux : 0 < lux)
    (hdeb : ¬ |st.previous_lux - lux| < cfg.minLuxDifference)
    (hppt : 0 < st.previous_time)
    (hpt : 0 < st.current_time)
    (hpi : st.previous_time < st.current_time)
    (htrig : (st.current_time - st.previous_time) * cfg.smoothingMultiplier <
      now - st.current_time)
    (hcnt : st.fix_counter < cfg.smoothingLimit)
    (hmult : 1 ≤ cfg.smoothingMultiplier)
    (hday : dayOf st.current_time = dayOf now)
    (hfile : fs (dayOf now) = some l0) (hl0 : 2 ≤ l0.length) :
    evs = (List.range ((N - 1).toNat)).map
        (fun (i : Nat) => (⟨dayOf now, ⟨(lux + st.previous_lux) / 2 + 1 * (i : Rat),
          st.current_time + ((now - st.current_time) / ((N : Int) : Rat)) * ((i : Rat) + 1),
          slotMinOf (st.current_time + ((now - st.current_time) / ((N : Int) : Rat)) *
            ((i : Rat) + 1)),
          "fixed"⟩⟩ : Ev)) ∧
    1 ≤ N ∧
    evs.length = (N - 1).toNat ∧
    (∀ e ∈ evs, e.record.origin = "fixed" ∧
      st.current_time < e.record.epochTime ∧ e.record.epochTime < now) ∧
    (∀ i : Nat, ∀ a b : Ev, evs[i]? = some a → evs[i + 1]? = some b →
      a.record.epochTime < b.record.epochTime ∧
      b.record.epochTime - a.record.epochTime =
        (now - st.current_time) / ((N : Int) : Rat)) := by
  subst hN_def
  subst hevs_def
  have hpi2 : 0 < st.current_time - st.previous_time := by linarith
  have hcigt : st.current_time - st.previous_time ≤
      (st.current_time - st.previous_time) * cfg.smoothingMultiplier :=
    le_mul_of_one_le_right hpi2.le hmult
  have hci : 0 < now - st.current_time := by linarith
  have hratio : 1 < (now - st.current_time) / (st.current_time - st.previous_time) := by
    rw [lt_div_iff hpi2]
    linarith
  have hN : 1 ≤ roundHalfEven ((now - st.current_time) /
      (st.current_time - st.previous_time)) := roundHalfEven_pos _ hratio
  have hNQ : (0 : Rat) < ((roundHalfEven ((now - st.current_time) /
      (st.current_time - st.previous_time)) : Int) : Rat) := by
    exact_mod_cast (by omega : (0 : Int) < roundHalfEven ((now - st.current_time) /
      (st.current_time - st.previous_time)))
  have hstepq : 0 < (now - st.current_time) /
      ((roundHalfEven ((now - st.current_time) /
        (st.current_time - st.previous_time)) : Int) : Rat) := div_pos hci hNQ
  have hbound : ∀ i : Nat, i < (roundHalfEven ((now - st.current_time) /
        (st.current_time - st.previous_time)) - 1).toNat →
      st.current_time < st.current_time + ((now - st.current_time) /
        ((roundHalfEven ((now - st.current_time) /
          (st.current_time - st.previous_time)) : Int) : Rat)) * ((i : Rat) + 1) ∧
      st.current_time + ((now - st.current_time) /
        ((roundHalfEven ((now - st.current_time) /
          (st.current_time - st.previous_time)) : Int) : Rat)) * ((i : Rat) + 1) < now := by
    intro i hi
    constructor
    · have : 0 < ((now - st.current_time) /
          ((roundHalfEven ((now - st.current_time) /
            (st.current_time - st.previous_time)) : Int) : Rat)) * ((i : Rat) + 1) :=
        mul_pos hstepq (by positivity)
      linarith
    · have hiZ : (i : Int) < roundHalfEven ((now - st.current_time) /
          (st.current_time - st.previous_time)) - 1 := Int.lt_toNat.mp hi
      have hiQ : (i : Rat) + 1 < ((roundHalfEven ((now - st.current_time) /
          (st.current_time - st.previous_time)) : Int) : Rat) := by
        have : (i : Int) + 1 < roundHalfEven ((now - st.current_time) /
            (st.current_time - st.previous_time)) := by omega
        exact_mod_cast this
      have hmul : ((now - st.current_time) /
          ((roundHalfEven ((now - st.current_time) /
            (st.current_time - st.previous_time)) : Int) : Rat)) * ((i : Rat) + 1) <
          ((now - st.current_time) /
          ((roundHalfEven ((now - st.current_time) /
            (st.current_time - st.previous_time)) : Int) : Rat)) *
          ((roundHalfEven ((now - st.current_time) /
            (st.current_time - st.previous_time)) : Int) : Rat) :=
        (mul_lt_mul_left hstepq).mpr hiQ
      rw [div_mul_cancel₀ _ (ne_of_gt hNQ)] at hmul
      linarith
  have hdays : ∀ i : Nat, i < (roundHalfEven ((now - st.current_time) /
        (st.current_time - st.previous_time)) - 1).toNat →
      dayOf (st.current_time + ((now - st.current_time) /
        ((roundHalfEven ((now - st.current_time) /
          (st.current_time - st.previous_time)) : Int) : Rat)) * ((i : Rat) + 1)) =
        dayOf now :=
    fun i hi => dayOf_squeeze _ _ _ (hbound i hi).1.le (hbound i hi).2.le hday
  have hcond : (0 < st.previous_time ∧ 0 < st.current_time) ∧
      ((st.current_time - st.previous_time) * cfg.smoothingMultiplier <
        now - st.current_time ∧ st.fix_counter < cfg.smoothingLimit) :=
    ⟨⟨hppt, hpt⟩, htrig, hcnt⟩
  have hmax : max 0 (roundHalfEven ((now - st.current_time) /
      (st.current_time - st.previous_time)) - 1) =
      roundHalfEven ((now - st.current_time) /
        (st.current_time - st.previous_time)) - 1 := max_eq_right (by omega)
  have hfix : ((monitorStep cfg st fs lux now).2.2).filter
      (fun e => e.record.origin == "fixed") =
      (List.range ((roundHalfEven ((now - st.current_time) /
          (st.current_time - st.previous_time)) - 1).toNat)).map
        (fun (i : Nat) => (⟨dayOf now, ⟨(lux + st.previous_lux) / 2 + 1 * (i : Rat),
          st.current_time + ((now - st.current_time) /
            ((roundHalfEven ((now - st.current_time) /
              (st.current_time - st.previous_time)) : Int) : Rat)) * ((i : Rat) + 1),
          slotMinOf (st.current_time + ((now - st.current_time) /
            ((roundHalfEven ((now - st.current_time) /
              (st.current_time - st.previous_time)) : Int) : Rat)) * ((i : Rat) + 1)),
          "fixed"⟩⟩ : Ev)) := by
    have hms : (monitorStep cfg st fs lux now).2.2 =
        (realWrite now lux
          ((List.range ((roundHalfEven ((now - st.current_time) /
              (st.current_time - st.previous_time)) - 1).toNat)).foldl
            (fun s i => synthIter st.current_time st.previous_lux now lux
              (roundHalfEven ((now - st.current_time) /
                (st.current_time - st.previous_time))) i s)
            ⟨fs, [], st.previous_lux, st.previous_time, st.current_time,
              "original"⟩)).events := by
      simp only [monitorStep, hlux, hdeb, hcond, hmax, true_and, and_true, and_self,
        if_true, if_false]
    obtain ⟨he, hf, ho⟩ := synthFold st.current_time st.previous_lux now lux
      (roundHalfEven ((now - st.current_time) / (st.current_time - st.previous_time)))
      (dayOf now) fs [] st.previous_lux st.previous_time st.current_time "original"
      l0 hfile hl0
      ((roundHalfEven ((now - st.current_time) /
        (st.current_time - st.previous_time)) - 1).toNat) hdays
    rw [hms]
    set S : SynthState := (List.range ((roundHalfEven ((now - st.current_time) /
        (st.current_time - st.previous_time)) - 1).toNat)).foldl
      (fun s i => synthIter st.current_time st.previous_lux now lux
        (roundHalfEven ((now - st.current_time) /
          (st.current_time - st.previous_time))) i s)
      ⟨fs, [], st.previous_lux, st.previous_time, st.current_time, "original"⟩ with hS
    have hpre : ¬ (0 < S.previous_previous_time ∧ 0 < S.previous_time ∧
        S.fs (dayOf now) = none) := by
      rintro ⟨-, -, h⟩
      rw [hf] at h
      cases h
    have happ : (appendEvent S (dayOf now) ⟨lux, now, slotMinOf now, "original"⟩).fs
        (dayOf now) =
        some ((l0 ++ (List.range ((roundHalfEven ((now - st.current_time) /
          (st.current_time - st.previous_time)) - 1).toNat)).map
          (fun (i : Nat) => (⟨(lux + st.previous_lux) / 2 + 1 * (i : Rat),
            st.current_time + ((now - st.current_time) /
              ((roundHalfEven ((now - st.current_time) /
                (st.current_time - st.previous_time)) : Int) : Rat)) * ((i : Rat) + 1),
            slotMinOf (st.current_time + ((now - st.current_time) /
              ((roundHalfEven ((now - st.current_time) /
                (st.current_time - st.previous_time)) : Int) : Rat)) * ((i : Rat) + 1)),
            "fixed"⟩ : Record))) ++ [⟨lux, now, slotMinOf now, "original"⟩]) := by
      rw [appendEvent_fs_same, hf]
      rfl
    have hlc : lineCountFS (appendEvent S (dayOf now)
        ⟨lux, now, slotMinOf now, "original"⟩).fs (dayOf now) =
        l0.length + ((roundHalfEven ((now - st.current_time) /
          (st.current_time - st.previous_time)) - 1).toNat) + 1 := by
      rw [lineCountFS_of_some _ _ _ happ]
      simp
      omega
    have hre : (realWrite now lux S).events =
        S.events ++ [⟨dayOf now, ⟨lux, now, slotMinOf now, "original"⟩⟩] := by
      simp only [realWrite]
      simp only [if_neg hpre]
      rw [if_neg (by
        rintro ⟨hcl, -⟩
        rw [hlc] at hcl
        omega)]
      rfl
    rw [hre, he]
    rw [List.nil_append, List.filter_append]
    have hkeep : ((List.range ((roundHalfEven ((now - st.current_time) /
        (st.current_time - st.previous_time)) - 1).toNat)).map
        (fun (i : Nat) => (⟨dayOf now, ⟨(lux + st.previous_lux) / 2 + 1 * (i : Rat),
          st.current_time + ((now - st.current_time) /
            ((roundHalfEven ((now - st.current_time) /
              (st.current_time - st.previous_time)) : Int) : Rat)) * ((i : Rat) + 1),
          slotMinOf (st.current_time + ((now - st.current_time) /
            ((roundHalfEven ((now - st.current_time) /
              (st.current_time - st.previous_time)) : Int) : Rat)) * ((i : Rat) + 1)),
          "fixed"⟩⟩ : Ev))).filter (fun e => e.record.origin == "fixed") =
        (List.range ((roundHalfEven ((now - st.current_time) /
          (st.current_time - st.previous_time)) - 1).toNat)).map
        (fun (i : Nat) => (⟨dayOf now, ⟨(lux + st.previous_lux) / 2 + 1 * (i : Rat),
          st.current_time + ((now - st.current_time) /
            ((roundHalfEven ((now - st.current_time) /
              (st.current_time - st.previous_time)) : Int) : Rat)) * ((i : Rat) + 1),
          slotMinOf (st.current_time + ((now - st.current_time) /
            ((roundHalfEven ((now - st.current_time) /
              (st.current_time - st.previous_time)) : Int) : Rat)) * ((i : Rat) + 1)),
          "fixed"⟩⟩ : Ev)) := by
      apply List.filter_eq_self.mpr
      intro e hemem
      rcases List.mem_map.mp hemem with ⟨i, _, rfl⟩
      rfl
    rw [hkeep]
    have hdrop : (List.filter (fun e => e.record.origin == "fixed")
        [(⟨dayOf now, ⟨lux, now, slotMinOf now, "original"⟩⟩ : Ev)]) = [] := rfl
    rw [hdrop, List.append_nil]
  refine ⟨hfix, hN, ?_, ?_, ?_⟩
  · rw [hfix]
    simp
  · intro e hemem
    rw [hfix] at hemem
    rcases List.mem_map.mp hemem with ⟨i, hiR, rfl⟩
    exact ⟨rfl, (hbound i (List.mem_range.mp hiR)).1, (hbound i (List.mem_range.mp hiR)).2⟩
  · intro i a b ha hb
    rw [hfix] at ha hb
    have hib : i + 1 < (roundHalfEven ((now - st.current_time) /
        (st.current_time - st.previous_time)) - 1).toNat := by
      by_contra hcon
      rw [List.getElem?_map, List.getElem?_eq_none (by rw [List.length_range]; omega)] at hb
      simp at hb
    have hia : i < (roundHalfEven ((now - st.current_time) /
        (st.current_time - st.previous_time)) - 1).toNat := by omega
    rw [List.getElem?_map, List.getElem?_range hia] at ha
    rw [List.getElem?_map, List.getElem?_range hib] at hb
    obtain rfl := (Option.some.inj ha).symm
    obtain rfl := (Option.some.inj hb).symm
    constructor
    · simp only []
      have hq : ((i : Rat) + 1) < (((i + 1 : Nat) : Rat) + 1) := by
        push_cast
        linarith
      have := (mul_lt_mul_left hstepq).mpr hq
      linarith
    · simp only []
      push_cast
      ring


/-- Witness for C2 at a concrete input: previousInterval 10s, currentInterval
37s, multiplier 1.7, fix limit 2, so N = round(3.7) = 4 and exactly 3 pulses
are synthesized. -/
theorem c2_gap_smoothing_witness :
    (1 : Rat) ≤ 17 / 10 ∧
    (((monitorStep ⟨1, 17 / 10, 2⟩ ⟨0, 50, 100, "original", 110, 0⟩
        (fun d => if d = 0 then some [⟨1, 1, 0, "original"⟩, ⟨2, 2, 0, "original"⟩] else none)
        5 147).2.2).filter (fun e => e.record.origin == "fixed")).length =
      (roundHalfEven (((147 : Rat) - 110) / (110 - 100)) - 1).toNat :=
  ⟨by norm_num,
    (c2_gap_smoothing ⟨1, 17 / 10, 2⟩ ⟨0, 50, 100, "original", 110, 0⟩
      (fun d => if d = 0 then some [⟨1, 1, 0, "original"⟩, ⟨2, 2, 0, "original"⟩] else none)
      5 147 [⟨1, 1, 0, "original"⟩, ⟨2, 2, 0, "original"⟩]
      (roundHalfEven (((147 : Rat) - 110) / (110 - 100)))
      (((monitorStep ⟨1, 17 / 10, 2⟩ ⟨0, 50, 100, "original", 110, 0⟩
        (fun d => if d = 0 then some [⟨1, 1, 0, "original"⟩, ⟨2, 2, 0, "original"⟩] else none)
        5 147).2.2).filter (fun e => e.record.origin == "fixed"))
      rfl rfl
      (by norm_num)
      (by rw [show |(0 : Rat) - 5| = 5 by norm_num]; norm_num)
      (by norm_num)
      (by norm_num)
      (by norm_num)
      (by norm_num)
      (by norm_num)
      (by norm_num)
      (by rw [show dayOf (110 : Rat) = 0 from by norm_num [dayOf, Int.floor_eq_iff],
        show dayOf (147 : Rat) = 0 from by norm_num [dayOf, Int.floor_eq_iff]])
      (by rw [show dayOf (147 : Rat) = 0 from by norm_num [dayOf, Int.floor_eq_iff]]; rfl)
      (by decide)).2.2.1⟩

end OctopusEnergyMonitor
